import Mathlib

/-!
Verification of the wazero runtime's store, instantiation and configuration
layer against its natural-language specification.

The definitions below are shallow embeddings of the Go source:
`config.go` (RuntimeConfig / ModuleConfig builders and `replaceImports`) and
the store file (`Store`, `Instantiate`, `requireModuleName`, `deleteModule`,
`resolveImports`, `getFunctionTypeID(s)`, `validateData`, `applyData`).
Go maps are embedded as association lists (the source only uses lookup,
insert and length on them), Go slices as Lean lists, fallible Go functions
as `Except`-valued functions, and machine integers as `Nat`/`Int` (the
quantities involved are far below any overflow boundary; the one relevant
bound, 2^27 interned types, is checked against a `Nat` length exactly as the
source compares `uint32(len(s.typeIDs))` with `functionMaxTypes`).
-/

namespace Wazero

/-! ### Features (modelled from the spec)

Modelled from the spec: the `Features` type ("Feature set: bitset of enabled
post-1.0 proposals", §2; per-feature toggles enumerated in §6) lives in
`internal/wasm/features.go`, which is not among the given source files.  A
bitset keyed by the six proposals is embedded as a Boolean-valued function on
a six-element tag type; `Set` writes one bit, `Get` reads one. -/

inductive Feature where
  | bulkMemoryOperations
  | multiValue
  | mutableGlobal
  | nonTrappingFloatToIntConversion
  | referenceTypes
  | signExtensionOps
deriving DecidableEq

def Features : Type := Feature → Bool

/-- `Features.Set(feature, enabled)`: set/clear a single feature bit. -/
def featuresSet (f : Features) (x : Feature) (v : Bool) : Features :=
  fun y => if y = x then v else f y

/-- `Features.Get(feature)`: read a single feature bit. -/
def featuresGet (f : Features) (x : Feature) : Bool := f x

/-- `Features20191205`: WebAssembly Core 1.0; only mutable-global is enabled
(spec §6: "MutableGlobal (default on)", all other toggles default off). -/
def features20191205 : Features := fun x => x = Feature.mutableGlobal

/-- `Features20220419`: WebAssembly Core 2.0 draft; all six proposals on. -/
def features20220419 : Features := fun _ => true

/-! ### RuntimeConfig (`config.go`) -/

/-- The engine constructor stored in `runtimeConfig.newEngine`
(`jit.NewEngine` / `interpreter.NewEngine`); only its identity matters
here, so it is embedded as a tag.  `engineLessConfig` leaves it nil. -/
inductive EngineKind where
  | jit
  | interp
deriving DecidableEq

/-- `runtimeConfig` (config.go:159-164).  `memoryCapacityPages` is a Go
function value that may be nil, embedded as an `Option`. -/
structure RuntimeConfigV where
  enabledFeatures : Features
  newEngine : Option EngineKind
  memoryLimitPages : Nat
  memoryCapacityPages : Option (Nat → Option Nat → Nat)

/-- `wasm.MemoryLimitPages` (2^16 pages = 4GiB). -/
def memoryLimitPagesMax : Nat := 65536

/-- `engineLessConfig` (config.go:166-171). -/
def engineLessConfig : RuntimeConfigV :=
  { enabledFeatures := features20191205
    newEngine := none
    memoryLimitPages := memoryLimitPagesMax
    memoryCapacityPages := some (fun minPages _ => minPages) }

/-- `NewRuntimeConfigJIT` (config.go:177-181). -/
def newRuntimeConfigJIT : RuntimeConfigV :=
  { engineLessConfig with newEngine := some EngineKind.jit }

/-- `NewRuntimeConfigInterpreter` (config.go:184-188). -/
def newRuntimeConfigInterpreter : RuntimeConfigV :=
  { engineLessConfig with newEngine := some EngineKind.interp }

/-- `WithFeatureBulkMemoryOperations` (config.go:191-197): sets the
bulk-memory bit and, being mutually dependent, the reference-types bit. -/
def withFeatureBulkMemoryOperations (enabled : Bool) (c : RuntimeConfigV) : RuntimeConfigV :=
  { c with enabledFeatures :=
      (featuresSet (featuresSet c.enabledFeatures Feature.bulkMemoryOperations enabled)
        Feature.referenceTypes enabled) }

/-- `WithFeatureMultiValue` (config.go:200-204). -/
def withFeatureMultiValue (enabled : Bool) (c : RuntimeConfigV) : RuntimeConfigV :=
  { c with enabledFeatures := featuresSet c.enabledFeatures Feature.multiValue enabled }

/-- `WithFeatureMutableGlobal` (config.go:207-211). -/
def withFeatureMutableGlobal (enabled : Bool) (c : RuntimeConfigV) : RuntimeConfigV :=
  { c with enabledFeatures := featuresSet c.enabledFeatures Feature.mutableGlobal enabled }

/-- `WithFeatureNonTrappingFloatToIntConversion` (config.go:214-218). -/
def withFeatureNonTrappingFloatToIntConversion (enabled : Bool) (c : RuntimeConfigV) : RuntimeConfigV :=
  { c with enabledFeatures :=
      featuresSet c.enabledFeatures Feature.nonTrappingFloatToIntConversion enabled }

/-- `WithFeatureReferenceTypes` (config.go:221-227): sets the
reference-types bit and, being mutually dependent, the bulk-memory bit. -/
def withFeatureReferenceTypes (enabled : Bool) (c : RuntimeConfigV) : RuntimeConfigV :=
  { c with enabledFeatures :=
      (featuresSet (featuresSet c.enabledFeatures Feature.referenceTypes enabled)
        Feature.bulkMemoryOperations enabled) }

/-- `WithFeatureSignExtensionOps` (config.go:230-234). -/
def withFeatureSignExtensionOps (enabled : Bool) (c : RuntimeConfigV) : RuntimeConfigV :=
  { c with enabledFeatures := featuresSet c.enabledFeatures Feature.signExtensionOps enabled }

/-- `WithMemoryCapacityPages` (config.go:237-244): a nil function is ignored
("Instead of erring") and the receiver is returned unchanged. -/
def withMemoryCapacityPages (f : Option (Nat → Option Nat → Nat)) (c : RuntimeConfigV) :
    RuntimeConfigV :=
  match f with
  | none => c
  | some g => { c with memoryCapacityPages := some g }

/-- `WithMemoryLimitPages` (config.go:247-251). -/
def withMemoryLimitPages (n : Nat) (c : RuntimeConfigV) : RuntimeConfigV :=
  { c with memoryLimitPages := n }

/-- `WithWasmCore1` (config.go:254-258). -/
def withWasmCore1 (c : RuntimeConfigV) : RuntimeConfigV :=
  { c with enabledFeatures := features20191205 }

/-- `WithWasmCore2` (config.go:261-265). -/
def withWasmCore2 (c : RuntimeConfigV) : RuntimeConfigV :=
  { c with enabledFeatures := features20220419 }

/-- One application of a `RuntimeConfig.WithXXX` builder option, used to
quantify over every option sequence reachable from the constructors. -/
inductive RuntimeOption where
  | featureBulkMemoryOperations (b : Bool)
  | featureMultiValue (b : Bool)
  | featureMutableGlobal (b : Bool)
  | featureNonTrappingFloatToIntConversion (b : Bool)
  | featureReferenceTypes (b : Bool)
  | featureSignExtensionOps (b : Bool)
  | memoryCapacityPages (f : Option (Nat → Option Nat → Nat))
  | memoryLimitPages (n : Nat)
  | wasmCore1
  | wasmCore2

def applyRuntimeOption (c : RuntimeConfigV) : RuntimeOption → RuntimeConfigV
  | RuntimeOption.featureBulkMemoryOperations b => withFeatureBulkMemoryOperations b c
  | RuntimeOption.featureMultiValue b => withFeatureMultiValue b c
  | RuntimeOption.featureMutableGlobal b => withFeatureMutableGlobal b c
  | RuntimeOption.featureNonTrappingFloatToIntConversion b =>
      withFeatureNonTrappingFloatToIntConversion b c
  | RuntimeOption.featureReferenceTypes b => withFeatureReferenceTypes b c
  | RuntimeOption.featureSignExtensionOps b => withFeatureSignExtensionOps b c
  | RuntimeOption.memoryCapacityPages f => withMemoryCapacityPages f c
  | RuntimeOption.memoryLimitPages n => withMemoryLimitPages n c
  | RuntimeOption.wasmCore1 => withWasmCore1 c
  | RuntimeOption.wasmCore2 => withWasmCore2 c

def applyRuntimeOptions (c : RuntimeConfigV) (opts : List RuntimeOption) : RuntimeConfigV :=
  opts.foldl applyRuntimeOption c

/-! ### Association lists

Go maps are embedded as association lists; the source only ever looks a key
up, assigns one key, deletes one key, and takes the length, so an
association list with unique keys refines the map. -/

def alookup {α β : Type} [DecidableEq α] : List (α × β) → α → Option β
  | [], _ => none
  | p :: rest, k => if p.1 = k then some p.2 else alookup rest k

/-- Go `m[k] = v`: replace the binding if the key is present, else add it. -/
def assocSet {α β : Type} [DecidableEq α] : List (α × β) → α → β → List (α × β)
  | [], k, v => [(k, v)]
  | p :: rest, k, v => if p.1 = k then (k, v) :: rest else p :: assocSet rest k v

/-! ### The wasm data model used by the store file -/

inductive ValueType where
  | i32
  | i64
  | f32
  | f64
deriving DecidableEq

def valueTypeName : ValueType → String
  | ValueType.i32 => "i32"
  | ValueType.i64 => "i64"
  | ValueType.f32 => "f32"
  | ValueType.f64 => "f64"

/-- `wasm.FunctionType` (ordered parameter and result types; spec §3:
"Structural equality"). -/
structure FunctionType where
  params : List ValueType
  results : List ValueType
deriving DecidableEq

/-- Modelled from the spec: `FunctionType.String()` (the intern key;
spec §4.4 "Interning uses the canonical textual form of the type as key")
is implemented in `internal/wasm`, outside the given source files.  Any
canonical rendering of the two type vectors serves; the store code uses the
resulting string only as a map key. -/
def funcTypeKey (t : FunctionType) : String :=
  String.intercalate " " (t.params.map valueTypeName) ++ "->"
    ++ String.intercalate " " (t.results.map valueTypeName)

/-- Modelled from the spec: `FunctionType.EqualsSignature` ("function
signature equality", §4.5 step 3) is structural equality with the given
parameter and result vectors. -/
def equalsSignature (t : FunctionType) (params results : List ValueType) : Bool :=
  t.params == params && t.results == results

inductive RefType where
  | funcref
  | externref
deriving DecidableEq

/-- `wasm.Table` descriptor as used by `Import.DescTable`.  Min and max are
the fields `resolveImports` reads.  The element type is modelled from the
spec ("TableInstance: element type (funcref/externref), vector of
references, Min, optional Max", §3): the table definitions live in
`internal/wasm`, outside the given source files. -/
structure Table where
  refType : RefType := RefType.funcref
  min : Nat := 0
  max : Option Nat := none
deriving DecidableEq

/-- `wasm.TableInstance` (same provenance as `Table`; the reference vector
is never consulted by the embedded operations and is omitted). -/
structure TableInstance where
  refType : RefType := RefType.funcref
  min : Nat := 0
  max : Option Nat := none
deriving DecidableEq

/-- `wasm.Memory` descriptor (`Import.DescMem`): min and max pages, both
plain integers as compared by `resolveImports`. -/
structure MemoryLimits where
  min : Nat := 0
  max : Nat := 0
deriving DecidableEq

/-- `wasm.MemoryInstance`: the byte buffer plus the min/max pages read by
`resolveImports`. -/
structure MemoryInstance where
  buffer : List Nat := []
  min : Nat := 0
  max : Nat := 0
deriving DecidableEq

structure GlobalType where
  valType : ValueType := ValueType.i32
  mutable : Bool := false
deriving DecidableEq

/-- `wasm.GlobalInstance`: type plus the 64-bit value slot. -/
structure GlobalInstance where
  typ : GlobalType := {}
  val : Nat := 0
deriving DecidableEq

inductive ExternType where
  | func
  | table
  | mem
  | global
deriving DecidableEq

/-- `wasm.Import`: the Go struct carries all four descriptors and the
`Type` tag selects the live one. -/
structure Import where
  module : String
  name : String
  typ : ExternType
  descFunc : Nat := 0
  descTable : Table := {}
  descMem : MemoryLimits := {}
  descGlobal : GlobalType := {}
deriving DecidableEq

/-- `wasm.FunctionInstance`, restricted to the field `resolveImports`
reads (`Type`). -/
structure FunctionInstance where
  typ : FunctionType
deriving DecidableEq

/-- `wasm.ExportInstance`: the kind tag plus one pointer per kind
(nil pointers as `none`).  `buildExports` always sets the field matching
the kind; the embedded `resolveImports` reads the matching field. -/
structure ExportInstance where
  typ : ExternType
  function : Option FunctionInstance := none
  global : Option GlobalInstance := none
  memory : Option MemoryInstance := none
  table : Option TableInstance := none
deriving DecidableEq

/-- Constant expressions usable as a data-segment offset.  The source
stores an opcode plus LEB128-encoded bytes and `executeConstExpression`
decodes them through the leb128 package (outside the given source files);
the expression is embedded in decoded form.  Only the i32-producing forms
can reach `validateData`/`applyData` in a validated module: the source
asserts `.(int32)` on the result and would panic otherwise. -/
inductive ConstantExpression where
  | i32Const (v : Int)
  | globalGet (idx : Nat)
deriving DecidableEq

/-- `int32(g.Val)`: the low 32 bits of the value slot read as a
two's-complement signed integer. -/
def toInt32 (n : Nat) : Int :=
  let m : Nat := n % 2 ^ 32
  if m < 2 ^ 31 then (m : Int) else (m : Int) - 2 ^ 32

/-- `executeConstExpression` (store file, lines 672-700), restricted to the
forms an i32 offset expression can take.  Go panics on a global index out
of range (module validation precludes it); the embedding defaults to 0. -/
def executeConstExpression (globals : List GlobalInstance) : ConstantExpression → Int
  | ConstantExpression.i32Const v => v
  | ConstantExpression.globalGet i => toInt32 (((globals.get? i).map GlobalInstance.val).getD 0)

/-- `wasm.DataSegment`.  `IsPassive` (module.go, outside the given source
files) holds exactly when the segment carries no offset expression
(spec §3: "data segments (active/passive)"; passive segments have no
destination). -/
structure DataSegment where
  offsetExpression : Option ConstantExpression := none
  init : List Nat := []
deriving DecidableEq

def DataSegment.isPassiveSeg (d : DataSegment) : Bool := d.offsetExpression.isNone

/-- `wasm.Module`, restricted to the sections the embedded operations
consult.  `importSection = none` models a nil Go slice (the case
`module.ImportSection == nil` tested by `replaceImports`). -/
structure Module where
  typeSection : List FunctionType := []
  importSection : Option (List Import) := none
  dataSection : List DataSegment := []
  startSection : Option Nat := none
deriving DecidableEq

/-- `wasm.ModuleInstance`, restricted to the fields the embedded
operations consult (name, export map, globals, memory). -/
structure ModuleInstance where
  name : String
  exports : List (String × ExportInstance) := []
  globals : List GlobalInstance := []
  memory : Option MemoryInstance := none
deriving DecidableEq

/-! ### Errors -/

/-- Causes wrapped by `errorInvalidImport` and its helpers (store file,
lines 654-668).  The source renders these as strings; the embedding keeps
them structured, preserving the values the messages interpolate. -/
inductive ImportCause where
  | funcTypeOutOfRange
  | signatureMismatch
  | minSizeMismatch (expected actual : Nat)
  | noMaxError (expected : Nat)
  | maxSizeMismatch (expected actual : Nat)
  | mutabilityMismatch
  | valueTypeMismatch
deriving DecidableEq

inductive WasmErr where
  | moduleAlreadyInstantiated (name : String)
  | tooManyFunctionTypes
  | moduleNotInstantiated (moduleName : String)
  | notExported (moduleName name : String)
  | exportTypeMismatch (moduleName name : String) (actual expected : ExternType)
  | invalidImport (idx : Nat) (ty : ExternType) (moduleName name : String) (cause : ImportCause)
  | outOfBoundsMemoryAccess
  | buildTablesFailed (msg : String)
  | compilationFailed (msg : String)
  | startFailed (funcIdx : Nat) (msg : String)
deriving DecidableEq

/-! ### The Store -/

/-- `maximumFunctionTypes = 1 << 27` (store file, lines 307-310). -/
def maximumFunctionTypes : Nat := 2 ^ 27

/-- `wasm.Store`, restricted to the fields the embedded operations
consult.  `EnabledFeatures` and the `Engine` interface pointer are not read
by any embedded operation; the mutex guards concurrency only. -/
structure Store where
  moduleNames : List String := []
  modules : List (String × ModuleInstance) := []
  typeIDs : List (String × Nat) := []
  functionMaxTypes : Nat := maximumFunctionTypes
deriving DecidableEq

/-- `NewStore` (store file, lines 416-425): empty maps, the 2^27 limit. -/
def newStore : Store := {}

/-- `Store.requireModuleName` (lines 529-537): fail if reserved, else
reserve. -/
def requireModuleName (s : Store) (name : String) : Except WasmErr Store :=
  if name ∈ s.moduleNames then Except.error (WasmErr.moduleAlreadyInstantiated name)
  else Except.ok { s with moduleNames := s.moduleNames ++ [name] }

/-- `Store.deleteModule` (lines 520-525): drop the name from both maps. -/
def deleteModule (s : Store) (name : String) : Store :=
  { s with modules := s.modules.filter (fun p => p.1 ≠ name)
           moduleNames := s.moduleNames.filter (fun x => x ≠ name) }

/-- `Store.addModule` (lines 540-544). -/
def addModule (s : Store) (m : ModuleInstance) : Store :=
  { s with modules := assocSet s.modules m.name m }

/-! ### Function-type interning -/

/-- `Store.getFunctionTypeID` (lines 717-729), acting on the `typeIDs` map
and limit.  `key := t.String()` is taken as input: the source uses the
type only through its canonical textual form. -/
def getFunctionTypeID (typeIDs : List (String × Nat)) (maxTypes : Nat) (key : String) :
    Except WasmErr (Nat × List (String × Nat)) :=
  match alookup typeIDs key with
  | some id => Except.ok (id, typeIDs)
  | none =>
    if maxTypes ≤ typeIDs.length then Except.error WasmErr.tooManyFunctionTypes
    else Except.ok (typeIDs.length, typeIDs ++ [(key, typeIDs.length)])

/-- `Store.getFunctionTypeIDs` (lines 702-715): intern each type of the
type section in order, returning the id vector and the updated map. -/
def getFunctionTypeIDsAux (typeIDs : List (String × Nat)) (maxTypes : Nat) :
    List FunctionType → Except WasmErr (List Nat × List (String × Nat))
  | [] => Except.ok ([], typeIDs)
  | t :: ts =>
    match getFunctionTypeID typeIDs maxTypes (funcTypeKey t) with
    | Except.error e => Except.error e
    | Except.ok (id, typeIDs1) =>
      match getFunctionTypeIDsAux typeIDs1 maxTypes ts with
      | Except.error e => Except.error e
      | Except.ok (ids, typeIDs2) => Except.ok (id :: ids, typeIDs2)

def storeGetFunctionTypeIDs (s : Store) (ts : List FunctionType) :
    Except WasmErr (List Nat × Store) :=
  match getFunctionTypeIDsAux s.typeIDs s.functionMaxTypes ts with
  | Except.error e => Except.error e
  | Except.ok (ids, typeIDs1) => Except.ok (ids, { s with typeIDs := typeIDs1 })

/-! ### Import resolution -/

/-- `ModuleInstance.getExport` (lines 405-414). -/
def getExport (m : ModuleInstance) (name : String) (et : ExternType) :
    Except WasmErr ExportInstance :=
  match alookup m.exports name with
  | none => Except.error (WasmErr.notExported m.name name)
  | some exp =>
    if exp.typ ≠ et then Except.error (WasmErr.exportTypeMismatch m.name name exp.typ et)
    else Except.ok exp

/-- The four accumulating return values of `Store.resolveImports`. -/
structure ResolvedImports where
  functions : List FunctionInstance := []
  globals : List GlobalInstance := []
  tables : List TableInstance := []
  memory : Option MemoryInstance := none
deriving DecidableEq

/-- Loop body of `Store.resolveImports` (lines 561-652), one import at a
time with its index.  The `.getD` defaults stand for Go nil-pointer
dereferences that cannot fire when the export instance is well-formed
(`buildExports` always populates the field matching the export's kind);
the theorems carry that invariant as a hypothesis where it matters. -/
def resolveImportsAux (modules : List (String × ModuleInstance))
    (typeSection : List FunctionType) (idx : Nat) (acc : ResolvedImports) :
    List Import → Except WasmErr ResolvedImports
  | [] => Except.ok acc
  | i :: rest =>
    match alookup modules i.module with
    | none => Except.error (WasmErr.moduleNotInstantiated i.module)
    | some m =>
      match getExport m i.name i.typ with
      | Except.error e => Except.error e
      | Except.ok imported =>
        match i.typ with
        | ExternType.func =>
          if typeSection.length ≤ i.descFunc then
            Except.error (WasmErr.invalidImport idx ExternType.func i.module i.name
              ImportCause.funcTypeOutOfRange)
          else
            let expectedType := (typeSection.get? i.descFunc).getD { params := [], results := [] }
            let importedFunction := imported.function.getD { typ := { params := [], results := [] } }
            if equalsSignature expectedType importedFunction.typ.params importedFunction.typ.results
            then
              resolveImportsAux modules typeSection (idx + 1)
                { acc with functions := acc.functions ++ [importedFunction] } rest
            else
              Except.error (WasmErr.invalidImport idx ExternType.func i.module i.name
                ImportCause.signatureMismatch)
        | ExternType.table =>
          let expected := i.descTable
          let importedTable := imported.table.getD {}
          if importedTable.min < expected.min then
            Except.error (WasmErr.invalidImport idx ExternType.table i.module i.name
              (ImportCause.minSizeMismatch expected.min importedTable.min))
          else
            match expected.max with
            | some expectedMax =>
              match importedTable.max with
              | none =>
                Except.error (WasmErr.invalidImport idx ExternType.table i.module i.name
                  (ImportCause.noMaxError expectedMax))
              | some actualMax =>
                if expectedMax < actualMax then
                  Except.error (WasmErr.invalidImport idx ExternType.table i.module i.name
                    (ImportCause.maxSizeMismatch expectedMax actualMax))
                else
                  resolveImportsAux modules typeSection (idx + 1)
                    { acc with tables := acc.tables ++ [importedTable] } rest
            | none =>
              resolveImportsAux modules typeSection (idx + 1)
                { acc with tables := acc.tables ++ [importedTable] } rest
        | ExternType.mem =>
          let expected := i.descMem
          let importedMemory := imported.memory.getD {}
          if importedMemory.min < expected.min then
            Except.error (WasmErr.invalidImport idx ExternType.mem i.module i.name
              (ImportCause.minSizeMismatch expected.min importedMemory.min))
          else if expected.max < importedMemory.max then
            Except.error (WasmErr.invalidImport idx ExternType.mem i.module i.name
              (ImportCause.maxSizeMismatch expected.max importedMemory.max))
          else
            resolveImportsAux modules typeSection (idx + 1)
              { acc with memory := some importedMemory } rest
        | ExternType.global =>
          let expected := i.descGlobal
          let importedGlobal := imported.global.getD {}
          if expected.mutable ≠ importedGlobal.typ.mutable then
            Except.error (WasmErr.invalidImport idx ExternType.global i.module i.name
              ImportCause.mutabilityMismatch)
          else if expected.valType ≠ importedGlobal.typ.valType then
            Except.error (WasmErr.invalidImport idx ExternType.global i.module i.name
              ImportCause.valueTypeMismatch)
          else
            resolveImportsAux modules typeSection (idx + 1)
              { acc with globals := acc.globals ++ [importedGlobal] } rest

/-- `Store.resolveImports` (lines 561-652).  Iterating a nil Go slice runs
zero iterations, hence the `getD []`. -/
def resolveImports (modules : List (String × ModuleInstance)) (m : Module) :
    Except WasmErr ResolvedImports :=
  resolveImportsAux modules m.typeSection 0 {} (m.importSection.getD [])

/-! ### Active data segments -/

/-- Go `copy(buf[off:], src)`: overwrite `buf` from position `off` with
`src`, truncated at the end of `buf`; `buf` keeps its length. -/
def copyAt {α : Type} : List α → Nat → List α → List α
  | [], _, _ => []
  | b :: bs, Nat.succ n, src => b :: copyAt bs n src
  | _ :: bs, 0, s :: ss => s :: copyAt bs 0 ss
  | b :: bs, 0, [] => b :: bs

/-- `ModuleInstance.validateData` (lines 381-393): walk every segment,
failing on the first active segment whose destination range leaves the
buffer; no write happens here. -/
def validateData (globals : List GlobalInstance) (bufLen : Nat) :
    List DataSegment → Option WasmErr
  | [] => none
  | d :: rest =>
    match d.offsetExpression with
    | none => validateData globals bufLen rest
    | some expr =>
      let offset := executeConstExpression globals expr
      let ceil : Int := offset + d.init.length
      if offset < 0 ∨ (bufLen : Int) < ceil then some WasmErr.outOfBoundsMemoryAccess
      else validateData globals bufLen rest

/-- `ModuleInstance.applyData` (lines 395-402): copy every active
segment's bytes at its offset.  Go slicing would panic on a negative
offset; `applyData` only runs after `validateData` has established
`0 ≤ offset`, where `Int.toNat` is exact. -/
def applyData (globals : List GlobalInstance) (buf : List Nat) :
    List DataSegment → List Nat
  | [] => buf
  | d :: rest =>
    match d.offsetExpression with
    | none => applyData globals buf rest
    | some expr =>
      let offset := executeConstExpression globals expr
      applyData globals (copyAt buf offset.toNat d.init) rest

/-- The data-segment phase of `Store.Instantiate` (lines 484-499):
`validateData` runs to completion before `applyData` writes anything, so a
failed validation leaves the buffer untouched. -/
def initializeData (globals : List GlobalInstance) (buf : List Nat)
    (data : List DataSegment) : List Nat × Option WasmErr :=
  match validateData globals buf.length data with
  | some e => (buf, some e)
  | none => (applyData globals buf data, none)

/-! ### Instantiate -/

/-- Outcomes of the `Instantiate` steps implemented outside the given
source files: `module.buildTables`, `buildGlobals`, `buildMemory`
(module.go) and the two `Engine` interface calls (`NewModuleEngine` and
the start-function `Call`), which are external even to the full
repository's store file.  `Instantiate` consumes only their
success/failure and, for globals and memory, their built values. -/
structure BuildOutcome where
  buildTables : Except String Unit := Except.ok ()
  builtGlobals : List GlobalInstance := []
  builtMemory : Option MemoryInstance := none
  newModuleEngine : Except String Unit := Except.ok ()
  callStart : Except String Unit := Except.ok ()

/-- `Store.Instantiate` (lines 435-517), step for step: reserve the name;
intern types; resolve imports; build tables; assemble the instance
(globals = imported ++ built, memory = imported if any else built, as in
`addSections`); validate active data segments; create the module engine;
apply active data segments; run the start function if declared; publish.
Each failure path ends exactly as in the source — note the engine-creation
failure (line 491) returns without `deleteModule`. -/
def instantiate (s : Store) (module : Module) (name : String) (b : BuildOutcome) :
    Except WasmErr ModuleInstance × Store :=
  match requireModuleName s name with
  | Except.error e => (Except.error e, s)
  | Except.ok s1 =>
    match storeGetFunctionTypeIDs s1 module.typeSection with
    | Except.error e => (Except.error e, deleteModule s1 name)
    | Except.ok (_, s2) =>
      match resolveImports s2.modules module with
      | Except.error e => (Except.error e, deleteModule s2 name)
      | Except.ok ri =>
        match b.buildTables with
        | Except.error msg => (Except.error (WasmErr.buildTablesFailed msg), deleteModule s2 name)
        | Except.ok _ =>
          let globals := ri.globals ++ b.builtGlobals
          let mem := match ri.memory with
            | some im => some im
            | none => b.builtMemory
          match validateData globals ((mem.map MemoryInstance.buffer).getD []).length
              module.dataSection with
          | some e => (Except.error e, deleteModule s2 name)
          | none =>
            match b.newModuleEngine with
            | Except.error msg => (Except.error (WasmErr.compilationFailed msg), s2)
            | Except.ok _ =>
              let buf1 := applyData globals ((mem.map MemoryInstance.buffer).getD [])
                module.dataSection
              let m1 : ModuleInstance :=
                { name := name, globals := globals
                  memory := mem.map (fun mi => { mi with buffer := buf1 }) }
              match module.startSection with
              | some funcIdx =>
                match b.callStart with
                | Except.error msg =>
                  (Except.error (WasmErr.startFailed funcIdx msg), deleteModule s2 name)
                | Except.ok _ => (Except.ok m1, addModule s2 m1)
              | none => (Except.ok m1, addModule s2 m1)

/-! ### ModuleConfig: preopened file systems (`config.go`)

`moduleConfig` mixes value-typed fields (strings, ints, slice headers) with
three map-typed fields created once by `NewModuleConfig` (`environKeys`,
`preopens`, `preopenPaths`).  Go's `ret := *c` in every `WithXXX` option
copies the struct but not the maps: the copy and the receiver keep pointing
at the same map objects, so writes through the copy are visible through the
receiver.  The embedding makes that explicit by splitting a config into its
copied value part (`ModuleConfigVal`) and the shared map objects
(`PreopenHeap`); a `WithXXX` call returns the new value part together with
the one heap both configs see afterwards.  Only the two preopen maps are
modelled; the `environ` backing-array aliasing of `WithEnv` is analogous
and not needed here. -/

/-- `wasm.FileEntry`, restricted to the `Path` and `FS` fields the config
stores; the `fs.FS` handle is opaque (`none` = nil). -/
structure FileEntry where
  path : String
  fsys : Option Nat := none
deriving DecidableEq

/-- The contents of the two map objects allocated by `NewModuleConfig` and
shared by every copy of the config (config.go:467-471). -/
structure PreopenHeap where
  preopens : List (Nat × FileEntry) := []
  preopenPaths : List (String × Nat) := []
deriving DecidableEq

/-- The copied (value-typed) part of `moduleConfig` relevant here: the
`preopenFD` counter (config.go:466-467). -/
structure ModuleConfigVal where
  preopenFD : Nat := 3
deriving DecidableEq

/-- `NewModuleConfig` (config.go:479-487): fresh value part, fresh (empty)
map objects. -/
def newModuleConfig : ModuleConfigVal × PreopenHeap := ({}, {})

/-- `moduleConfig.setFS` (config.go:583-593).  It assigns into
`c.preopens` and `c.preopenPaths` — the shared map objects — and bumps the
caller's own `preopenFD` copy. -/
def setFS (c : ModuleConfigVal) (h : PreopenHeap) (path : String) (f : Option Nat) :
    ModuleConfigVal × PreopenHeap :=
  let entry : FileEntry := { path := path, fsys := f }
  match alookup h.preopenPaths path with
  | some fd => (c, { h with preopens := assocSet h.preopens fd entry })
  | none =>
    ({ c with preopenFD := c.preopenFD + 1 },
     { preopens := assocSet h.preopens c.preopenFD entry
       preopenPaths := assocSet h.preopenPaths path c.preopenFD })

/-- `moduleConfig.WithFS` (config.go:510-514): `ret := *c` copies the
value part only, then `ret.setFS("/", fs)` writes through the shared maps.
The first component is the returned config's value part; the heap is the
one the receiver also sees after the call. -/
def withFS (c : ModuleConfigVal) (h : PreopenHeap) (f : Option Nat) :
    ModuleConfigVal × PreopenHeap :=
  setFS c h "/" f

/-- `moduleConfig.WithWorkDirFS` (config.go:576-580). -/
def withWorkDirFS (c : ModuleConfigVal) (h : PreopenHeap) (f : Option Nat) :
    ModuleConfigVal × PreopenHeap :=
  setFS c h "." f

/-! ### ModuleConfig: import rewriting (`config.go:637-685`) -/

/-- The two replacement maps of `moduleConfig` (config.go:472-476).
`replacedImports` is keyed by the NUL-joined old module and name exactly as
`WithImport` builds it; `none` models a nil Go map (neither `WithImport`
nor `WithImportModule` called), distinct from an empty one. -/
structure ModuleConfigRepl where
  replacedImports : Option (List (String × String × String)) := none
  replacedImportModules : Option (List (String × String)) := none

def nulChar : Char := Char.ofNat 0

/-- The key built by `WithImport` (config.go:522-526): oldModule, NUL,
oldName. -/
def nulJoin (m n : String) : String := m ++ String.singleton nulChar ++ n

/-- The key split in `replaceImports` (config.go:665-667):
`strings.IndexByte(oldImport, 0)` finds the first NUL; the module is the
part before it and the name the part after it. -/
def splitAtNul (s : String) : String × String :=
  let cs := s.toList
  (String.mk (cs.takeWhile (fun c => c ≠ nulChar)),
   String.mk ((cs.dropWhile (fun c => c ≠ nulChar)).drop 1))

/-- Inner loop of the whole-module phase (config.go:650-659): rewrite
every import whose module matches, reporting whether any did. -/
def replaceInModule (oldModule newModule : String) : List Import → List Import × Bool
  | [] => ([], false)
  | imp :: rest =>
    let r := replaceInModule oldModule newModule rest
    if imp.module = oldModule then ({ imp with module := newModule } :: r.1, true)
    else (imp :: r.1, r.2)

/-- Inner loop of the per-import phase (config.go:664-677): rewrite
every import whose module and name both match, reporting whether any did. -/
def replaceInImport (oldModule oldName newModule newName : String) :
    List Import → List Import × Bool
  | [] => ([], false)
  | imp :: rest =>
    let r := replaceInImport oldModule oldName newModule newName rest
    if imp.module = oldModule ∧ imp.name = oldName then
      ({ imp with module := newModule, name := newName } :: r.1, true)
    else (imp :: r.1, r.2)

/-- The `replacedImportModules` loop (config.go:648-660), threading
the import list and the `changed` flag.  Go iterates the map in unspecified
order; the embedding fixes the association-list order (the properties
proved here do not depend on it). -/
def moduleReplPhase (repls : List (String × String)) (start : List Import × Bool) :
    List Import × Bool :=
  repls.foldl (fun acc r =>
    ((replaceInModule r.1 r.2 acc.1).1, acc.2 || (replaceInModule r.1 r.2 acc.1).2)) start

/-- The `replacedImports` loop (config.go:662-678). -/
def importReplPhase (repls : List (String × String × String)) (start : List Import × Bool) :
    List Import × Bool :=
  repls.foldl (fun acc r =>
    ((replaceInImport (splitAtNul r.1).1 (splitAtNul r.1).2 r.2.1 r.2.2 acc.1).1,
      acc.2 || (replaceInImport (splitAtNul r.1).1 (splitAtNul r.1).2 r.2.1 r.2.2 acc.1).2)) start

/-- `moduleConfig.replaceImports` (config.go:637-685): return the module
unchanged when no replacement is configured or the module has no import
section; otherwise run the whole-module phase, then the per-import phase,
and return the input module itself when nothing matched, else a copy with
the rebuilt import section. -/
def replaceImports (c : ModuleConfigRepl) (m : Module) : Module :=
  if (c.replacedImportModules = none ∧ c.replacedImports = none) ∨ m.importSection = none
  then m
  else
    let imports := m.importSection.getD []
    let p1 := moduleReplPhase (c.replacedImportModules.getD []) (imports, false)
    let p2 := importReplPhase (c.replacedImports.getD []) p1
    if p2.2 then { m with importSection := some p2.1 } else m

/-- The order the specification claims: per-import replacements first, then
whole-module replacements.  This follows the spec's words, to be compared
with `replaceImports`, which embeds the source. -/
def replaceImportsImportThenModule (c : ModuleConfigRepl) (m : Module) : Module :=
  if (c.replacedImportModules = none ∧ c.replacedImports = none) ∨ m.importSection = none
  then m
  else
    let imports := m.importSection.getD []
    let p1 := importReplPhase (c.replacedImports.getD []) (imports, false)
    let p2 := moduleReplPhase (c.replacedImportModules.getD []) p1
    if p2.2 then { m with importSection := some p2.1 } else m

/-- The whole-module phase without the `changed` bookkeeping: a plain fold
of rewrites. -/
def applyModuleRepls (repls : List (String × String)) (imports : List Import) : List Import :=
  repls.foldl (fun imps r =>
    imps.map (fun imp => if imp.module = r.1 then { imp with module := r.2 } else imp)) imports

/-- The per-import phase without the `changed` bookkeeping. -/
def applyImportRepls (repls : List (String × String × String)) (imports : List Import) :
    List Import :=
  repls.foldl (fun imps r =>
    imps.map (fun imp =>
      if imp.module = (splitAtNul r.1).1 ∧ imp.name = (splitAtNul r.1).2 then
        { imp with module := r.2.1, name := r.2.2 }
      else imp)) imports

/-- Whether a data segment is active with an out-of-bounds destination
range — the condition `validateData` tests for one segment
(`offset < 0 || ceil > len(buffer)`). -/
def segOOBb (globals : List GlobalInstance) (bufLen : Nat) (d : DataSegment) : Bool :=
  match d.offsetExpression with
  | none => false
  | some expr =>
    decide (executeConstExpression globals expr < 0
      ∨ (bufLen : Int) < executeConstExpression globals expr + d.init.length)

/-! ### Concrete inputs used by counterexamples and witnesses -/

/-- A configuration and module on which the two rewrite-phase orders
disagree: the whole-module replacement `("a" -> "b")` makes the
per-import replacement `("b", "n") -> ("c", "m")` applicable. -/
def c7Cfg : ModuleConfigRepl :=
  { replacedImports := some [(nulJoin "b" "n", ("c", "m"))]
    replacedImportModules := some [("a", "b")] }

def c7Module : Module :=
  { importSection := some [{ module := "a", name := "n", typ := ExternType.func }] }

/-- An exported table whose element type (externref) differs from
the importing module's declared element type (funcref), with matching
min/max. -/
def c4Table : TableInstance := { refType := RefType.externref, min := 1, max := none }

def c4Export : ExportInstance := { typ := ExternType.table, table := some c4Table }

def c4Instance : ModuleInstance := { name := "M", exports := [("t", c4Export)] }

def c4Import : Import :=
  { module := "M", name := "t", typ := ExternType.table
    descTable := { refType := RefType.funcref, min := 1, max := none } }

def c4Module : Module := { importSection := some [c4Import] }

/-- A well-formed exported table of min 1 used to witness the min-size
check against a declared min of 2. -/
def c4wTable : TableInstance := { refType := RefType.funcref, min := 1, max := none }

def c4wExport : ExportInstance := { typ := ExternType.table, table := some c4wTable }

def c4wInstance : ModuleInstance := { name := "M", exports := [("t", c4wExport)] }

def c4wImport : Import :=
  { module := "M", name := "t", typ := ExternType.table
    descTable := { refType := RefType.funcref, min := 2, max := none } }

/-! ## Theorems -/

/-- Claim C6: the bulk-memory-operations and reference-types features are
always co-set — `WithFeatureBulkMemoryOperations(v)` and
`WithFeatureReferenceTypes(v)` each leave both feature bits equal to `v`,
for every starting configuration and both polarities of `v`. -/
theorem featureCoupling_bulkMemory_referenceTypes :
    ∀ (c : RuntimeConfigV) (v : Bool),
      featuresGet (withFeatureBulkMemoryOperations v c).enabledFeatures
          Feature.bulkMemoryOperations = v
      ∧ featuresGet (withFeatureBulkMemoryOperations v c).enabledFeatures
          Feature.referenceTypes = v
      ∧ featuresGet (withFeatureReferenceTypes v c).enabledFeatures
          Feature.bulkMemoryOperations = v
      ∧ featuresGet (withFeatureReferenceTypes v c).enabledFeatures
          Feature.referenceTypes = v := by
  intro c v
  refine ⟨?_, ?_, ?_, ?_⟩ <;>
    simp [featuresGet, featuresSet, withFeatureBulkMemoryOperations, withFeatureReferenceTypes]

lemma applyRuntimeOption_capacity_isSome (c : RuntimeConfigV) (o : RuntimeOption)
    (h : c.memoryCapacityPages.isSome = true) :
    (applyRuntimeOption c o).memoryCapacityPages.isSome = true := by
  cases o with
  | memoryCapacityPages f =>
    cases f with
    | none => exact h
    | some g => rfl
  | _ => exact h

lemma applyRuntimeOptions_capacity_isSome (opts : List RuntimeOption) :
    ∀ c : RuntimeConfigV, c.memoryCapacityPages.isSome = true →
      (applyRuntimeOptions c opts).memoryCapacityPages.isSome = true := by
  induction opts with
  | nil => intro c h; exact h
  | cons o rest ih =>
    intro c h
    exact ih (applyRuntimeOption c o) (applyRuntimeOption_capacity_isSome c o h)

/-- Claim C10: every `RuntimeConfig` reachable from either constructor
through any sequence of builder options carries a non-nil memory-capacity
function; the default function returns the module's min pages; and
`WithMemoryCapacityPages` with a nil function returns the receiver
unchanged. -/
theorem memoryCapacity_invariant :
    (∀ opts : List RuntimeOption,
        (applyRuntimeOptions newRuntimeConfigInterpreter opts).memoryCapacityPages.isSome = true
        ∧ (applyRuntimeOptions newRuntimeConfigJIT opts).memoryCapacityPages.isSome = true)
    ∧ (∀ (minPages : Nat) (maxPages : Option Nat),
        newRuntimeConfigInterpreter.memoryCapacityPages.map (fun g => g minPages maxPages)
            = some minPages
        ∧ newRuntimeConfigJIT.memoryCapacityPages.map (fun g => g minPages maxPages)
            = some minPages)
    ∧ (∀ c : RuntimeConfigV, withMemoryCapacityPages none c = c) := by
  refine ⟨fun opts => ⟨?_, ?_⟩, fun minPages maxPages => ⟨rfl, rfl⟩, fun c => rfl⟩
  · exact applyRuntimeOptions_capacity_isSome opts newRuntimeConfigInterpreter rfl
  · exact applyRuntimeOptions_capacity_isSome opts newRuntimeConfigJIT rfl

/-- Claim C2: evidence for the code bug.  `WithFS` on a freshly built
`ModuleConfig` writes the new preopen entry into the map objects shared
with the receiver: after `c := NewModuleConfig(); c.WithFS(f)` the heap
both configs see maps file descriptor 3 to the root entry, while the
claim (and the `ModuleConfig` doc comment: "ModuleConfig is immutable")
requires the receiver's observable state to be unchanged. -/
theorem withFS_mutatesReceiverPreopens :
    (withFS newModuleConfig.1 newModuleConfig.2 (some 7)).2.preopens
        = [(3, { path := "/", fsys := some 7 })]
      ∧ newModuleConfig.2.preopens = [] := by
  exact ⟨rfl, rfl⟩

/-- Claim C1: evidence for the code bug.  When `NewModuleEngine` fails,
`Instantiate` returns the wrapped compilation error without calling
`deleteModule` (store file, lines 490-493), so the module name stays
reserved: a retry under the same name then fails with "module m has
already been instantiated", although the claim (and the comment on
`requireModuleName`) requires the reservation to be released on every
failure after it. -/
theorem instantiate_engineFailure_keepsReservation :
    (instantiate newStore {} "m" { newModuleEngine := Except.error "boom" }).1
        = Except.error (WasmErr.compilationFailed "boom")
      ∧ (instantiate newStore {} "m"
          { newModuleEngine := Except.error "boom" }).2.moduleNames = ["m"]
      ∧ (instantiate (instantiate newStore {} "m"
            { newModuleEngine := Except.error "boom" }).2 {} "m" {}).1
        = Except.error (WasmErr.moduleAlreadyInstantiated "m") := by
  refine ⟨rfl, rfl, rfl⟩

/-- Claim C9: name reservation round-trips.  For a name that is not
reserved (and, by the store invariant that `addModule` only runs after a
successful reservation, not in the modules map either),
`requireModuleName` succeeds and a subsequent `deleteModule` restores the
store exactly; `deleteModule` of a never-reserved name is a no-op; and
`requireModuleName` of a reserved name fails (returning no new store). -/
theorem moduleName_roundTrip :
    ∀ (s : Store) (name : String),
      (name ∉ s.moduleNames → (∀ p ∈ s.modules, p.1 ≠ name) →
        requireModuleName s name
            = Except.ok { s with moduleNames := s.moduleNames ++ [name] }
        ∧ deleteModule { s with moduleNames := s.moduleNames ++ [name] } name = s)
      ∧ (name ∉ s.moduleNames → (∀ p ∈ s.modules, p.1 ≠ name) →
        deleteModule s name = s)
      ∧ (name ∈ s.moduleNames →
        requireModuleName s name = Except.error (WasmErr.moduleAlreadyInstantiated name)) := by
  intro s name
  obtain ⟨mn, mods, tids, fmax⟩ := s
  have hfilters : ∀ (h1 : name ∉ mn) (h2 : ∀ p ∈ mods, p.1 ≠ name),
      mods.filter (fun p => p.1 ≠ name) = mods ∧ mn.filter (fun x => x ≠ name) = mn := by
    intro h1 h2
    constructor
    · rw [List.filter_eq_self]
      intro a ha
      exact decide_eq_true (h2 a ha)
    · rw [List.filter_eq_self]
      intro a ha
      exact decide_eq_true (fun e => h1 (e ▸ ha))
  have hsingle : ([name].filter fun x => x ≠ name) = [] := by simp
  refine ⟨fun h1 h2 => ⟨?_, ?_⟩, fun h1 h2 => ?_, fun h1 => ?_⟩
  · simp [requireModuleName, h1]
  · obtain ⟨hm, hn⟩ := hfilters h1 h2
    show Store.mk ((mn ++ [name]).filter fun x => x ≠ name)
        (mods.filter fun p => p.1 ≠ name) tids fmax = Store.mk mn mods tids fmax
    rw [List.filter_append, hn, hsingle, List.append_nil, hm]
  · obtain ⟨hm, hn⟩ := hfilters h1 h2
    show Store.mk (mn.filter fun x => x ≠ name)
        (mods.filter fun p => p.1 ≠ name) tids fmax = Store.mk mn mods tids fmax
    rw [hn, hm]
  · simp [requireModuleName, h1]

/-- Concrete instance of `moduleName_roundTrip`: reserving "a" on the
fresh store and deleting it returns the fresh store. -/
theorem moduleName_roundTrip_witness :
    requireModuleName newStore "a"
        = Except.ok { newStore with moduleNames := newStore.moduleNames ++ ["a"] }
      ∧ deleteModule { newStore with moduleNames := newStore.moduleNames ++ ["a"] } "a"
        = newStore :=
  (moduleName_roundTrip newStore "a").1 (by decide) (by decide)

/-! ### Lemmas on association-list lookup, toward the interning claim -/

lemma alookup_eq_none_iff {α β : Type} [DecidableEq α] (l : List (α × β)) (k : α) :
    alookup l k = none ↔ k ∉ l.map Prod.fst := by
  induction l with
  | nil => simp [alookup]
  | cons p rest ih =>
    rw [List.map_cons]
    by_cases h : p.1 = k
    · rw [alookup, if_pos h]
      constructor
      · intro hx; cases hx
      · intro hnot
        exact absurd (List.mem_cons.2 (Or.inl h.symm)) hnot
    · rw [alookup, if_neg h, ih]
      constructor
      · intro hnot hmem
        rcases List.mem_cons.1 hmem with he | hm
        · exact h he.symm
        · exact hnot hm
      · intro hnot hmem
        exact hnot (List.mem_cons.2 (Or.inr hmem))

lemma alookup_pos {α : Type} [DecidableEq α] :
    ∀ (l : List (α × Nat)) (b : Nat) (k : α) (id : Nat),
      l.map Prod.snd = List.range' b l.length →
      alookup l k = some id →
      k ∈ l.map Prod.fst ∧ id = b + List.indexOf k (l.map Prod.fst) := by
  intro l
  induction l with
  | nil =>
    intro b k id _ h
    simp [alookup] at h
  | cons p rest ih =>
    intro b k id hr hl
    simp only [List.map_cons, List.length_cons] at hr
    rw [List.range'_succ b rest.length 1] at hr
    simp only [List.cons.injEq] at hr
    obtain ⟨hb, hrest⟩ := hr
    by_cases h : p.1 = k
    · simp only [alookup, if_pos h, Option.some.injEq] at hl
      refine ⟨by rw [List.map_cons]; exact List.mem_cons.2 (Or.inl h.symm), ?_⟩
      rw [List.map_cons, List.indexOf_cons_eq _ h]
      omega
    · simp only [alookup, if_neg h] at hl
      obtain ⟨hmem, hid⟩ := ih (b + 1) k id hrest hl
      refine ⟨by rw [List.map_cons]; exact List.mem_cons.2 (Or.inr hmem), ?_⟩
      rw [List.map_cons, List.indexOf_cons_ne _ h, hid]
      omega

/-- Behavior of one interning run: state invariants (ids are positions,
keys distinct), monotone growth of the key list, and each returned id is
the index of the corresponding canonical form among the final keys. -/
lemma internAux_spec :
    ∀ (ts : List FunctionType) (l : List (String × Nat)) (maxTypes : Nat)
      (ids : List Nat) (final : List (String × Nat)),
      l.map Prod.snd = List.range l.length →
      (l.map Prod.fst).Nodup →
      getFunctionTypeIDsAux l maxTypes ts = Except.ok (ids, final) →
      final.map Prod.snd = List.range final.length
      ∧ (final.map Prod.fst).Nodup
      ∧ (∃ suffix, final.map Prod.fst = l.map Prod.fst ++ suffix)
      ∧ ids.length = ts.length
      ∧ (∀ (i : Nat) (hi : i < ts.length),
          funcTypeKey (ts.get ⟨i, hi⟩) ∈ final.map Prod.fst
          ∧ ids.get? i = some (List.indexOf (funcTypeKey (ts.get ⟨i, hi⟩)) (final.map Prod.fst)))
      ∧ (∀ k ∈ final.map Prod.fst, k ∈ l.map Prod.fst ∨ ∃ t ∈ ts, funcTypeKey t = k) := by
  intro ts
  induction ts with
  | nil =>
    intro l maxTypes ids final hr hn h
    simp only [getFunctionTypeIDsAux, Except.ok.injEq, Prod.mk.injEq] at h
    obtain ⟨h1, h2⟩ := h
    subst h1; subst h2
    refine ⟨hr, hn, ⟨[], (List.append_nil _).symm⟩, rfl, ?_, ?_⟩
    · intro i hi; exact absurd hi (by simp)
    · intro k hk; exact Or.inl hk
  | cons t ts' ih =>
    intro l maxTypes ids final hr hn h
    rw [getFunctionTypeIDsAux] at h
    cases hg : getFunctionTypeID l maxTypes (funcTypeKey t) with
    | error e => rw [hg] at h; simp at h
    | ok pr =>
      obtain ⟨id0, l1⟩ := pr
      rw [hg] at h
      dsimp only [] at h
      cases haux : getFunctionTypeIDsAux l1 maxTypes ts' with
      | error e => rw [haux] at h; simp at h
      | ok pr2 =>
        obtain ⟨ids', final1⟩ := pr2
        rw [haux] at h
        simp only [Except.ok.injEq, Prod.mk.injEq] at h
        obtain ⟨hids, hfin⟩ := h
        subst hids; subst hfin
        -- dissect the single interning step
        rw [getFunctionTypeID] at hg
        cases hl : alookup l (funcTypeKey t) with
        | some id1 =>
          rw [hl] at hg
          simp only [Except.ok.injEq, Prod.mk.injEq] at hg
          obtain ⟨hid0, hl1⟩ := hg
          subst hid0; subst hl1
          obtain ⟨hsnd, hkeys, ⟨suffix, hsuf⟩, hlen, hidx, horig⟩ :=
            ih l maxTypes ids' final1 hr hn haux
          have hpos := alookup_pos l 0 (funcTypeKey t) id1
            (by rw [hr, List.range_eq_range']) hl
          obtain ⟨hmem, hid1⟩ := hpos
          refine ⟨hsnd, hkeys, ⟨suffix, hsuf⟩, by simp [hlen], ?_, ?_⟩
          · intro i hi
            match i with
            | 0 =>
              refine ⟨by rw [hsuf]; exact List.mem_append_left _ hmem, ?_⟩
              show some id1 = _
              rw [hsuf, show (t :: ts').get ⟨0, hi⟩ = t from rfl,
                List.indexOf_append_of_mem hmem, hid1, Nat.zero_add]
            | Nat.succ i' =>
              have hi' : i' < ts'.length := by simpa using hi
              exact (hidx i' hi')
          · intro k hk
            rcases horig k hk with hkl | ⟨t', ht', he⟩
            · exact Or.inl hkl
            · exact Or.inr ⟨t', List.mem_cons_of_mem _ ht', he⟩
        | none =>
          rw [hl] at hg
          by_cases hmax : maxTypes ≤ l.length
          · rw [if_pos hmax] at hg; cases hg
          · rw [if_neg hmax] at hg
            simp only [Except.ok.injEq, Prod.mk.injEq] at hg
            obtain ⟨hid0, hl1⟩ := hg
            subst hid0
            have hkeynot : funcTypeKey t ∉ l.map Prod.fst :=
              (alookup_eq_none_iff l (funcTypeKey t)).1 hl
            have hr1 : l1.map Prod.snd = List.range l1.length := by
              rw [← hl1]
              simp only [List.map_append, List.map_cons, List.map_nil, hr,
                List.length_append, List.length_cons, List.length_nil]
              rw [List.range_succ]
            have hn1 : (l1.map Prod.fst).Nodup := by
              rw [← hl1]
              simp only [List.map_append, List.map_cons, List.map_nil]
              refine List.Nodup.append hn (by simp) ?_
              intro a ha hb
              simp only [List.mem_cons, List.not_mem_nil, or_false] at hb
              exact hkeynot (hb ▸ ha)
            obtain ⟨hsnd, hkeys, ⟨suffix, hsuf⟩, hlen, hidx, horig⟩ :=
              ih l1 maxTypes ids' final1 hr1 hn1 haux
            have hl1keys : l1.map Prod.fst = l.map Prod.fst ++ [funcTypeKey t] := by
              rw [← hl1]; simp
            have hsuf' : final1.map Prod.fst
                = l.map Prod.fst ++ (funcTypeKey t :: suffix) := by
              rw [hsuf, hl1keys, List.append_assoc, List.singleton_append]
            refine ⟨hsnd, hkeys, ⟨funcTypeKey t :: suffix, hsuf'⟩, by simp [hlen], ?_, ?_⟩
            · intro i hi
              match i with
              | 0 =>
                have hmem0 : funcTypeKey t ∈ final1.map Prod.fst := by
                  rw [hsuf']
                  exact List.mem_append_right _ (List.mem_cons_self _ _)
                refine ⟨hmem0, ?_⟩
                show some l.length = _
                rw [hsuf', show (t :: ts').get ⟨0, hi⟩ = t from rfl,
                  List.indexOf_append_of_not_mem hkeynot,
                  List.indexOf_cons_self, Nat.add_zero, List.length_map]
              | Nat.succ i' =>
                have hi' : i' < ts'.length := by simpa using hi
                exact (hidx i' hi')
            · intro k hk
              rcases horig k hk with hkl | ⟨t', ht', he⟩
              · rw [hl1keys] at hkl
                rcases List.mem_append.1 hkl with hkl' | hkl'
                · exact Or.inl hkl'
                · simp only [List.mem_singleton] at hkl'
                  exact Or.inr ⟨t, List.mem_cons_self _ _, hkl'.symm⟩
              · exact Or.inr ⟨t', List.mem_cons_of_mem _ ht', he⟩

/-- Claim C3: function-type interning assigns IDs sequentially from zero,
keyed on the canonical textual form: after any successful interning run on
a fresh store, two types received the same id iff their canonical forms
are equal; the stored ids are exactly `0..n-1` for the `n` distinct
canonical forms that occurred; and a fresh form is rejected once the map
already holds `2^27` entries. -/
theorem typeInterning_correct :
    (∀ (ts : List FunctionType) (ids : List Nat) (s1 : Store),
      storeGetFunctionTypeIDs newStore ts = Except.ok (ids, s1) →
      (∀ (i j : Nat) (hi : i < ts.length) (hj : j < ts.length),
        ids.get? i = ids.get? j ↔
          funcTypeKey (ts.get ⟨i, hi⟩) = funcTypeKey (ts.get ⟨j, hj⟩))
      ∧ s1.typeIDs.map Prod.snd = List.range s1.typeIDs.length
      ∧ (s1.typeIDs.map Prod.fst).Nodup
      ∧ (∀ t ∈ ts, funcTypeKey t ∈ s1.typeIDs.map Prod.fst)
      ∧ (∀ k ∈ s1.typeIDs.map Prod.fst, ∃ t ∈ ts, funcTypeKey t = k))
    ∧ (∀ (l : List (String × Nat)) (key : String),
      (∀ p ∈ l, p.1 ≠ key) → maximumFunctionTypes ≤ l.length →
      getFunctionTypeID l maximumFunctionTypes key
        = Except.error WasmErr.tooManyFunctionTypes) := by
  constructor
  · intro ts ids s1 h
    rw [storeGetFunctionTypeIDs] at h
    cases haux : getFunctionTypeIDsAux newStore.typeIDs newStore.functionMaxTypes ts with
    | error e => rw [haux] at h; cases h
    | ok pr =>
      obtain ⟨ids0, tids⟩ := pr
      rw [haux] at h
      simp only [Except.ok.injEq, Prod.mk.injEq] at h
      obtain ⟨hids, hs1⟩ := h
      subst hids
      obtain ⟨hsnd, hkeys, _, hlen, hidx, horig⟩ :=
        internAux_spec ts [] maximumFunctionTypes ids0 tids rfl (by simp) haux
      have hty : s1.typeIDs = tids := by rw [← hs1]
      refine ⟨?_, by rw [hty]; exact hsnd, by rw [hty]; exact hkeys, ?_, ?_⟩
      · intro i j hi hj
        obtain ⟨hmi, hgi⟩ := hidx i hi
        obtain ⟨hmj, hgj⟩ := hidx j hj
        rw [hgi, hgj]
        constructor
        · intro he
          have := Option.some.inj he
          exact (List.indexOf_inj hmi hmj).1 this
        · intro he
          rw [he]
      · intro t ht
        rw [hty]
        obtain ⟨⟨i, hi⟩, hget⟩ := List.mem_iff_get.1 ht
        have := (hidx i hi).1
        rw [hget] at this
        exact this
      · intro k hk
        rw [hty] at hk
        rcases horig k hk with hkl | hx
        · simp at hkl
        · exact hx
  · intro l key hne hmax
    have : alookup l key = none :=
      (alookup_eq_none_iff l key).2 (by
        intro hmem
        obtain ⟨p, hp, he⟩ := List.mem_map.1 hmem
        exact hne p hp he)
    rw [getFunctionTypeID, this, if_pos hmax]

/-- Concrete instance of `typeInterning_correct`: interning
`[() -> (), (i32) -> (), () -> ()]` yields ids `[0, 1, 0]`, and the first
and third entries agree because their canonical forms agree; the bound
clause applied to a map of `2^27` entries rejects a fresh key. -/
theorem typeInterning_correct_witness :
    (storeGetFunctionTypeIDs newStore
        [{ params := [], results := [] }, { params := [ValueType.i32], results := [] },
          { params := [], results := [] }]
      = Except.ok ([0, 1, 0], { newStore with typeIDs := [("->", 0), ("i32->", 1)] }))
    ∧ ([0, 1, 0] : List Nat).get? 0 = ([0, 1, 0] : List Nat).get? 2
    ∧ getFunctionTypeID (List.replicate maximumFunctionTypes ("k", 0))
        maximumFunctionTypes "j" = Except.error WasmErr.tooManyFunctionTypes := by
  refine ⟨rfl, ?_, ?_⟩
  · exact ((typeInterning_correct.1
      [{ params := [], results := [] }, { params := [ValueType.i32], results := [] },
        { params := [], results := [] }]
      [0, 1, 0] { newStore with typeIDs := [("->", 0), ("i32->", 1)] }
      rfl).1 0 2 (by decide) (by decide)).2 rfl
  · refine typeInterning_correct.2 _ "j" ?_ ?_
    · intro p hp
      rw [List.eq_of_mem_replicate hp]
      decide
    · simp [List.length_replicate]

/-! ### Lemmas on the import-rewriting phases -/

lemma replaceInModule_fst (o n : String) :
    ∀ l : List Import, (replaceInModule o n l).1
      = l.map (fun imp => if imp.module = o then { imp with module := n } else imp) := by
  intro l
  induction l with
  | nil => rfl
  | cons imp rest ih =>
    rw [replaceInModule]
    by_cases h : imp.module = o
    · simp only [if_pos h, List.map_cons, ih]
    · simp only [if_neg h, List.map_cons, ih]

lemma replaceInImport_fst (om onm nm nnm : String) :
    ∀ l : List Import, (replaceInImport om onm nm nnm l).1
      = l.map (fun imp =>
          if imp.module = om ∧ imp.name = onm then { imp with module := nm, name := nnm }
          else imp) := by
  intro l
  induction l with
  | nil => rfl
  | cons imp rest ih =>
    rw [replaceInImport]
    by_cases h : imp.module = om ∧ imp.name = onm
    · simp only [if_pos h, List.map_cons, ih]
    · simp only [if_neg h, List.map_cons, ih]

lemma replaceInModule_nomatch (o n : String) :
    ∀ l : List Import, (∀ imp ∈ l, imp.module ≠ o) → replaceInModule o n l = (l, false) := by
  intro l
  induction l with
  | nil => intro _; rfl
  | cons imp rest ih =>
    intro h
    rw [replaceInModule, ih (fun x hx => h x (List.mem_cons_of_mem _ hx)),
      if_neg (h imp (List.mem_cons_self _ _))]

lemma replaceInImport_nomatch (om onm nm nnm : String) :
    ∀ l : List Import, (∀ imp ∈ l, ¬(imp.module = om ∧ imp.name = onm)) →
      replaceInImport om onm nm nnm l = (l, false) := by
  intro l
  induction l with
  | nil => intro _; rfl
  | cons imp rest ih =>
    intro h
    rw [replaceInImport, ih (fun x hx => h x (List.mem_cons_of_mem _ hx)),
      if_neg (h imp (List.mem_cons_self _ _))]

lemma replaceInModule_snd_false (o n : String) :
    ∀ l : List Import, (replaceInModule o n l).2 = false → ∀ imp ∈ l, imp.module ≠ o := by
  intro l
  induction l with
  | nil => intro _ imp h; cases h
  | cons imp rest ih =>
    intro h x hx
    rw [replaceInModule] at h
    by_cases hm : imp.module = o
    · rw [if_pos hm] at h; cases h
    · rw [if_neg hm] at h
      rcases List.mem_cons.1 hx with he | hr
      · rw [he]; exact hm
      · exact ih h x hr

lemma replaceInImport_snd_false (om onm nm nnm : String) :
    ∀ l : List Import, (replaceInImport om onm nm nnm l).2 = false →
      ∀ imp ∈ l, ¬(imp.module = om ∧ imp.name = onm) := by
  intro l
  induction l with
  | nil => intro _ imp h; cases h
  | cons imp rest ih =>
    intro h x hx
    rw [replaceInImport] at h
    by_cases hm : imp.module = om ∧ imp.name = onm
    · rw [if_pos hm] at h; cases h
    · rw [if_neg hm] at h
      rcases List.mem_cons.1 hx with he | hr
      · rw [he]; exact hm
      · exact ih h x hr

lemma moduleReplPhase_fst (repls : List (String × String)) :
    ∀ start : List Import × Bool,
      (moduleReplPhase repls start).1 = applyModuleRepls repls start.1 := by
  induction repls with
  | nil => intro start; rfl
  | cons r rest ih =>
    intro start
    rw [moduleReplPhase, applyModuleRepls, List.foldl_cons, List.foldl_cons]
    have := ih ((replaceInModule r.1 r.2 start.1).1, start.2 || (replaceInModule r.1 r.2 start.1).2)
    rw [moduleReplPhase, applyModuleRepls] at this
    rw [this, replaceInModule_fst]

lemma importReplPhase_fst (repls : List (String × String × String)) :
    ∀ start : List Import × Bool,
      (importReplPhase repls start).1 = applyImportRepls repls start.1 := by
  induction repls with
  | nil => intro start; rfl
  | cons r rest ih =>
    intro start
    rw [importReplPhase, applyImportRepls, List.foldl_cons, List.foldl_cons]
    have := ih ((replaceInImport (splitAtNul r.1).1 (splitAtNul r.1).2 r.2.1 r.2.2 start.1).1,
      start.2 || (replaceInImport (splitAtNul r.1).1 (splitAtNul r.1).2 r.2.1 r.2.2 start.1).2)
    rw [importReplPhase, applyImportRepls] at this
    rw [this, replaceInImport_fst]

lemma moduleReplPhase_snd_false (repls : List (String × String)) :
    ∀ start : List Import × Bool, (moduleReplPhase repls start).2 = false →
      start.2 = false ∧ (moduleReplPhase repls start).1 = start.1 := by
  induction repls with
  | nil => intro start h; exact ⟨h, rfl⟩
  | cons r rest ih =>
    intro start h
    rw [moduleReplPhase, List.foldl_cons] at h
    obtain ⟨hor, hfst⟩ := ih _ h
    dsimp only [] at hor
    rw [Bool.or_eq_false_iff] at hor
    obtain ⟨h1, h2⟩ := hor
    have heq := replaceInModule_nomatch r.1 r.2 start.1
      (replaceInModule_snd_false r.1 r.2 start.1 h2)
    rw [heq] at hfst
    refine ⟨h1, ?_⟩
    rw [moduleReplPhase, List.foldl_cons, heq]
    exact hfst

lemma importReplPhase_snd_false (repls : List (String × String × String)) :
    ∀ start : List Import × Bool, (importReplPhase repls start).2 = false →
      start.2 = false ∧ (importReplPhase repls start).1 = start.1 := by
  induction repls with
  | nil => intro start h; exact ⟨h, rfl⟩
  | cons r rest ih =>
    intro start h
    rw [importReplPhase, List.foldl_cons] at h
    obtain ⟨hor, hfst⟩ := ih _ h
    dsimp only [] at hor
    rw [Bool.or_eq_false_iff] at hor
    obtain ⟨h1, h2⟩ := hor
    have heq := replaceInImport_nomatch (splitAtNul r.1).1 (splitAtNul r.1).2 r.2.1 r.2.2
      start.1 (replaceInImport_snd_false (splitAtNul r.1).1 (splitAtNul r.1).2 r.2.1 r.2.2
        start.1 h2)
    rw [heq] at hfst
    refine ⟨h1, ?_⟩
    rw [importReplPhase, List.foldl_cons, heq]
    exact hfst

lemma applyModuleRepls_nil (repls : List (String × String)) :
    applyModuleRepls repls [] = [] := by
  induction repls with
  | nil => rfl
  | cons r rest ih =>
    rw [applyModuleRepls, List.foldl_cons, List.map_nil]
    exact ih

lemma applyImportRepls_nil (repls : List (String × String × String)) :
    applyImportRepls repls [] = [] := by
  induction repls with
  | nil => rfl
  | cons r rest ih =>
    rw [applyImportRepls, List.foldl_cons, List.map_nil]
    exact ih

/-- Claim C7, counterexample: the source applies the whole-module
replacements first and the per-import replacements second, so on `c7Cfg`
the import `("a", "n")` becomes `("b", "n")` and then `("c", "m")`; in
the claimed order (per-import first) it would end as `("b", "n")`.  The
two orders give different modules, refuting the claim at this input. -/
theorem replaceImports_orderCounterexample :
    replaceImports c7Cfg c7Module
      = { c7Module with importSection :=
            (some [{ module := "c", name := "m", typ := ExternType.func }]) }
    ∧ replaceImportsImportThenModule c7Cfg c7Module
      = { c7Module with importSection :=
            (some [{ module := "b", name := "n", typ := ExternType.func }]) }
    ∧ replaceImports c7Cfg c7Module ≠ replaceImportsImportThenModule c7Cfg c7Module := by
  refine ⟨by decide, by decide, by decide⟩

lemma moduleReplPhase_nomatch (repls : List (String × String)) :
    ∀ imports : List Import, (∀ r ∈ repls, ∀ imp ∈ imports, imp.module ≠ r.1) →
      moduleReplPhase repls (imports, false) = (imports, false) := by
  induction repls with
  | nil => intro imports _; rfl
  | cons r rest ih =>
    intro imports h
    have hstep : replaceInModule r.1 r.2 imports = (imports, false) :=
      replaceInModule_nomatch r.1 r.2 imports
        (fun imp hi => h r (List.mem_cons_self _ _) imp hi)
    rw [moduleReplPhase, List.foldl_cons]
    show List.foldl _
      ((replaceInModule r.1 r.2 imports).1, false || (replaceInModule r.1 r.2 imports).2)
      rest = (imports, false)
    rw [hstep]
    exact ih imports (fun r' hr' => h r' (List.mem_cons_of_mem _ hr'))

lemma importReplPhase_nomatch (repls : List (String × String × String)) :
    ∀ imports : List Import,
      (∀ r ∈ repls, ∀ imp ∈ imports,
        ¬(imp.module = (splitAtNul r.1).1 ∧ imp.name = (splitAtNul r.1).2)) →
      importReplPhase repls (imports, false) = (imports, false) := by
  induction repls with
  | nil => intro imports _; rfl
  | cons r rest ih =>
    intro imports h
    have hstep : replaceInImport (splitAtNul r.1).1 (splitAtNul r.1).2 r.2.1 r.2.2 imports
        = (imports, false) :=
      replaceInImport_nomatch (splitAtNul r.1).1 (splitAtNul r.1).2 r.2.1 r.2.2 imports
        (fun imp hi => h r (List.mem_cons_self _ _) imp hi)
    rw [importReplPhase, List.foldl_cons]
    show List.foldl _
      ((replaceInImport (splitAtNul r.1).1 (splitAtNul r.1).2 r.2.1 r.2.2 imports).1,
        false || (replaceInImport (splitAtNul r.1).1 (splitAtNul r.1).2 r.2.1 r.2.2 imports).2)
      rest = (imports, false)
    rw [hstep]
    exact ih imports (fun r' hr' => h r' (List.mem_cons_of_mem _ hr'))

/-- Claim C7, amended: `replaceImports` rewrites the import list by
applying the whole-module (`WithImportModule`) replacements first and the
per-import (`WithImport`) replacements second — the order the source and
its doc comments state, opposite to the claim's.  Stated via the
phase functions, absorbing the `changed`-flag short-circuit. -/
theorem replaceImports_moduleThenImport :
    ∀ (c : ModuleConfigRepl) (m : Module),
      (replaceImports c m).importSection.getD []
        = applyImportRepls (c.replacedImports.getD [])
            (applyModuleRepls (c.replacedImportModules.getD []) (m.importSection.getD [])) := by
  intro c m
  have hm : (moduleReplPhase (c.replacedImportModules.getD [])
        (m.importSection.getD [], false)).1
      = applyModuleRepls (c.replacedImportModules.getD []) (m.importSection.getD []) :=
    moduleReplPhase_fst (c.replacedImportModules.getD []) (m.importSection.getD [], false)
  have hi : (importReplPhase (c.replacedImports.getD [])
        (moduleReplPhase (c.replacedImportModules.getD [])
          (m.importSection.getD [], false))).1
      = applyImportRepls (c.replacedImports.getD [])
          (moduleReplPhase (c.replacedImportModules.getD [])
            (m.importSection.getD [], false)).1 :=
    importReplPhase_fst (c.replacedImports.getD [])
      (moduleReplPhase (c.replacedImportModules.getD []) (m.importSection.getD [], false))
  rw [replaceImports]
  by_cases h0 : (c.replacedImportModules = none ∧ c.replacedImports = none)
      ∨ m.importSection = none
  · rw [if_pos h0]
    rcases h0 with ⟨h1, h2⟩ | h3
    · rw [h1, h2]; rfl
    · rw [h3]
      show ([] : List Import) = applyImportRepls (c.replacedImports.getD [])
        (applyModuleRepls (c.replacedImportModules.getD []) ([] : List Import))
      rw [applyModuleRepls_nil, applyImportRepls_nil]
  · rw [if_neg h0]
    by_cases hc : (importReplPhase (c.replacedImports.getD [])
        (moduleReplPhase (c.replacedImportModules.getD [])
          (m.importSection.getD [], false))).2 = true
    · rw [if_pos hc]
      show (importReplPhase (c.replacedImports.getD [])
          (moduleReplPhase (c.replacedImportModules.getD [])
            (m.importSection.getD [], false))).1 = _
      rw [hi, hm]
    · rw [if_neg hc]
      have h2 := importReplPhase_snd_false (c.replacedImports.getD []) _
        (Bool.eq_false_iff.mpr hc)
      have h1 := moduleReplPhase_snd_false (c.replacedImportModules.getD []) _ h2.1
      show m.importSection.getD [] = _
      rw [← hm, ← hi, h2.2, h1.2]

/-- Claim C8: `replaceImports` is pure.  It returns the identical input
module when nothing is configured or the module has no import section, or
when no configured replacement matches any import; otherwise the result
differs from the input only in the import section.  (In the pure
embedding the input is never mutated by construction; in the source every
rewritten entry is a fresh shallow copy and the input slice is copied
before editing.) -/
theorem replaceImports_pure :
    ∀ (c : ModuleConfigRepl) (m : Module),
      ((c.replacedImportModules = none ∧ c.replacedImports = none) ∨ m.importSection = none →
        replaceImports c m = m)
      ∧ ((∀ r ∈ c.replacedImportModules.getD [], ∀ imp ∈ m.importSection.getD [],
            imp.module ≠ r.1) →
        (∀ r ∈ c.replacedImports.getD [], ∀ imp ∈ m.importSection.getD [],
            ¬(imp.module = (splitAtNul r.1).1 ∧ imp.name = (splitAtNul r.1).2)) →
        replaceImports c m = m)
      ∧ ((replaceImports c m).typeSection = m.typeSection
        ∧ (replaceImports c m).dataSection = m.dataSection
        ∧ (replaceImports c m).startSection = m.startSection) := by
  intro c m
  refine ⟨fun h0 => ?_, fun hmod himp => ?_, ?_⟩
  · rw [replaceImports, if_pos h0]
  · rw [replaceImports]
    by_cases h0 : (c.replacedImportModules = none ∧ c.replacedImports = none)
        ∨ m.importSection = none
    · rw [if_pos h0]
    · rw [if_neg h0]
      have hmphase := moduleReplPhase_nomatch (c.replacedImportModules.getD [])
        (m.importSection.getD []) hmod
      have hiphase := importReplPhase_nomatch (c.replacedImports.getD [])
        (m.importSection.getD []) himp
      show (if (importReplPhase (c.replacedImports.getD [])
          (moduleReplPhase (c.replacedImportModules.getD [])
            (m.importSection.getD [], false))).2 = true
        then { m with importSection := some (importReplPhase (c.replacedImports.getD [])
          (moduleReplPhase (c.replacedImportModules.getD [])
            (m.importSection.getD [], false))).1 }
        else m) = m
      rw [hmphase, hiphase]
      rfl
  · rw [replaceImports]
    by_cases h0 : (c.replacedImportModules = none ∧ c.replacedImports = none)
        ∨ m.importSection = none
    · rw [if_pos h0]; exact ⟨rfl, rfl, rfl⟩
    · rw [if_neg h0]
      by_cases hc : (importReplPhase (c.replacedImports.getD [])
          (moduleReplPhase (c.replacedImportModules.getD [])
            (m.importSection.getD [], false))).2 = true
      · rw [if_pos hc]; exact ⟨rfl, rfl, rfl⟩
      · rw [if_neg hc]; exact ⟨rfl, rfl, rfl⟩

/-- Concrete instance of `replaceImports_pure`: a configured whole-module
replacement that matches no import leaves the module value identical. -/
theorem replaceImports_pure_witness :
    replaceImports { replacedImportModules := some [("x", "y")] }
        { importSection := some [{ module := "a", name := "n", typ := ExternType.func }] }
      = { importSection := some [{ module := "a", name := "n", typ := ExternType.func }] } :=
  (replaceImports_pure { replacedImportModules := some [("x", "y")] }
    { importSection := some [{ module := "a", name := "n", typ := ExternType.func }] }).2.1
    (by decide) (by decide)

/-- Claim C4, counterexample: `resolveImports` accepts a table import
whose declared element type (funcref) differs from the exported table's
element type (externref) — the source's table case (store file, lines
600-619) checks only min/max, never the element type — while the claim
requires a link error on any element-type inequality. -/
theorem resolveImports_ignoresTableElemType :
    c4Import.descTable.refType ≠ c4Table.refType
    ∧ resolveImports [("M", c4Instance)] c4Module = Except.ok { tables := [c4Table] } := by
  exact ⟨by decide, rfl⟩

/-- Claim C4, amended: for a table import whose named export resolves to a
table, `resolveImports` verifies that the exported min is at least the
declared min and that a declared max implies an exported max at most the
declared max; each violation fails with a link error carrying the index,
module and name of the import, and on success the table is collected
and resolution proceeds with the next import.  No element-type equality
check is performed. -/
theorem resolveImports_tableChecks :
    ∀ (modules : List (String × ModuleInstance)) (ts : List FunctionType)
      (i : Import) (rest : List Import) (idx : Nat) (acc : ResolvedImports)
      (mi : ModuleInstance) (exp : ExportInstance) (tbl : TableInstance),
      i.typ = ExternType.table →
      alookup modules i.module = some mi →
      getExport mi i.name i.typ = Except.ok exp →
      exp.table = some tbl →
      ((tbl.min < i.descTable.min →
        resolveImportsAux modules ts idx acc (i :: rest)
          = Except.error (WasmErr.invalidImport idx ExternType.table i.module i.name
              (ImportCause.minSizeMismatch i.descTable.min tbl.min)))
      ∧ (∀ em, i.descTable.min ≤ tbl.min → i.descTable.max = some em → tbl.max = none →
        resolveImportsAux modules ts idx acc (i :: rest)
          = Except.error (WasmErr.invalidImport idx ExternType.table i.module i.name
              (ImportCause.noMaxError em)))
      ∧ (∀ em am, i.descTable.min ≤ tbl.min → i.descTable.max = some em →
          tbl.max = some am → em < am →
        resolveImportsAux modules ts idx acc (i :: rest)
          = Except.error (WasmErr.invalidImport idx ExternType.table i.module i.name
              (ImportCause.maxSizeMismatch em am)))
      ∧ (i.descTable.min ≤ tbl.min →
          (∀ em, i.descTable.max = some em → ∃ am, tbl.max = some am ∧ am ≤ em) →
        resolveImportsAux modules ts idx acc (i :: rest)
          = resolveImportsAux modules ts (idx + 1)
              { acc with tables := acc.tables ++ [tbl] } rest)) := by
  intro modules ts i rest idx acc mi exp tbl htyp hlk hge htbl
  have hred : resolveImportsAux modules ts idx acc (i :: rest)
      = (if tbl.min < i.descTable.min then
          Except.error (WasmErr.invalidImport idx ExternType.table i.module i.name
            (ImportCause.minSizeMismatch i.descTable.min tbl.min))
        else
          match i.descTable.max with
          | some expectedMax =>
            (match tbl.max with
            | none =>
              Except.error (WasmErr.invalidImport idx ExternType.table i.module i.name
                (ImportCause.noMaxError expectedMax))
            | some actualMax =>
              if expectedMax < actualMax then
                Except.error (WasmErr.invalidImport idx ExternType.table i.module i.name
                  (ImportCause.maxSizeMismatch expectedMax actualMax))
              else
                resolveImportsAux modules ts (idx + 1)
                  { acc with tables := acc.tables ++ [tbl] } rest)
          | none =>
            resolveImportsAux modules ts (idx + 1)
              { acc with tables := acc.tables ++ [tbl] } rest) := by
    rw [resolveImportsAux, hlk]
    dsimp only []
    rw [hge]
    dsimp only []
    rw [htyp]
    dsimp only []
    rw [htbl]
    dsimp only [Option.getD_some]
  refine ⟨fun hmin => ?_, fun em hminle hem hnone => ?_,
    fun em am hminle hem ham hlt => ?_, fun hminle hmax => ?_⟩
  · rw [hred, if_pos hmin]
  · rw [hred, if_neg (Nat.not_lt.2 hminle), hem]
    dsimp only []
    rw [hnone]
  · rw [hred, if_neg (Nat.not_lt.2 hminle), hem]
    dsimp only []
    rw [ham]
    dsimp only []
    rw [if_pos hlt]
  · rw [hred, if_neg (Nat.not_lt.2 hminle)]
    cases hdm : i.descTable.max with
    | none => rfl
    | some em =>
      obtain ⟨am, ham, hle⟩ := hmax em hdm
      dsimp only []
      rw [ham]
      dsimp only []
      rw [if_neg (Nat.not_lt.2 hle)]

/-- Concrete instance of `resolveImports_tableChecks`: a table import
declaring min 2 against an exported table of min 1 fails with a link
error naming the import. -/
theorem resolveImports_tableChecks_witness :
    resolveImportsAux [("M", c4wInstance)] [] 0 {} [c4wImport]
      = Except.error (WasmErr.invalidImport 0 ExternType.table "M" "t"
          (ImportCause.minSizeMismatch 2 1)) := by
  exact (resolveImports_tableChecks [("M", c4wInstance)] [] c4wImport [] 0 {}
    c4wInstance c4wExport c4wTable rfl rfl rfl rfl).1 (by decide)

/-! ### Lemmas on data-segment validation and copying -/

lemma copyAt_length {α : Type} : ∀ (buf : List α) (off : Nat) (src : List α),
    (copyAt buf off src).length = buf.length := by
  intro buf
  induction buf with
  | nil => intro off src; cases off <;> cases src <;> rfl
  | cons b bs ih =>
    intro off src
    cases off with
    | succ n => simp only [copyAt, List.length_cons, ih]
    | zero =>
      cases src with
      | nil => rfl
      | cons s ss => simp only [copyAt, List.length_cons, ih]

lemma copyAt_get_lt {α : Type} : ∀ (buf : List α) (off : Nat) (src : List α) (j : Nat),
    j < off → (copyAt buf off src).get? j = buf.get? j := by
  intro buf
  induction buf with
  | nil => intro off src j _; cases off <;> cases src <;> rfl
  | cons b bs ih =>
    intro off src j hj
    cases off with
    | zero => omega
    | succ n =>
      cases j with
      | zero => rfl
      | succ m =>
        show (copyAt bs n src).get? m = bs.get? m
        exact ih n src m (by omega)

lemma copyAt_get_ge {α : Type} : ∀ (buf : List α) (off : Nat) (src : List α) (j : Nat),
    off + src.length ≤ j → (copyAt buf off src).get? j = buf.get? j := by
  intro buf
  induction buf with
  | nil => intro off src j _; cases off <;> cases src <;> rfl
  | cons b bs ih =>
    intro off src j hj
    cases off with
    | succ n =>
      cases j with
      | zero => rfl
      | succ m =>
        show (copyAt bs n src).get? m = bs.get? m
        exact ih n src m (by omega)
    | zero =>
      cases src with
      | nil => rfl
      | cons s ss =>
        cases j with
        | zero => simp at hj
        | succ m =>
          show (copyAt bs 0 ss).get? m = bs.get? m
          exact ih 0 ss m (by simp at hj; omega)

lemma copyAt_get_in {α : Type} : ∀ (buf : List α) (off : Nat) (src : List α) (k : Nat),
    k < src.length → off + src.length ≤ buf.length →
    (copyAt buf off src).get? (off + k) = src.get? k := by
  intro buf
  induction buf with
  | nil =>
    intro off src k hk hle
    simp only [List.length_nil] at hle
    omega
  | cons b bs ih =>
    intro off src k hk hle
    cases off with
    | succ n =>
      show (b :: copyAt bs n src).get? (n + 1 + k) = src.get? k
      have harith : n + 1 + k = (n + k) + 1 := by omega
      rw [harith]
      show (copyAt bs n src).get? (n + k) = src.get? k
      exact ih n src k hk (by simp only [List.length_cons] at hle; omega)
    | zero =>
      cases src with
      | nil => simp only [List.length_nil] at hk; omega
      | cons s ss =>
        cases k with
        | zero => rfl
        | succ m =>
          show (copyAt bs 0 ss).get? (0 + m) = ss.get? m
          exact ih 0 ss m (by simp only [List.length_cons] at hk; omega)
            (by simp only [List.length_cons] at hle ⊢; omega)

lemma validateData_none_iff : ∀ (data : List DataSegment) (globals : List GlobalInstance)
    (bufLen : Nat),
    validateData globals bufLen data = none ↔ ∀ d ∈ data, segOOBb globals bufLen d = false := by
  intro data globals bufLen
  induction data with
  | nil => simp [validateData]
  | cons d rest ih =>
    cases hoe : d.offsetExpression with
    | none =>
      rw [validateData, hoe]
      rw [ih]
      constructor
      · intro h d' hd'
        rcases List.mem_cons.1 hd' with he | hm
        · rw [he]
          simp [segOOBb, hoe]
        · exact h d' hm
      · intro h d' hd'
        exact h d' (List.mem_cons_of_mem _ hd')
    | some expr =>
      rw [validateData, hoe]
      dsimp only []
      by_cases hc : executeConstExpression globals expr < 0
          ∨ (bufLen : Int) < executeConstExpression globals expr + d.init.length
      · rw [if_pos hc]
        constructor
        · intro h; cases h
        · intro h
          exfalso
          have hd := h d (List.mem_cons_self _ _)
          rw [segOOBb, hoe] at hd
          simp only [decide_eq_false_iff_not] at hd
          exact hd hc
      · rw [if_neg hc, ih]
        constructor
        · intro h d' hd'
          rcases List.mem_cons.1 hd' with he | hm
          · rw [he, segOOBb, hoe]
            simp only [decide_eq_false_iff_not]
            exact hc
          · exact h d' hm
        · intro h d' hd'
          exact h d' (List.mem_cons_of_mem _ hd')

lemma validateData_some_val : ∀ (data : List DataSegment) (globals : List GlobalInstance)
    (bufLen : Nat) (e : WasmErr),
    validateData globals bufLen data = some e → e = WasmErr.outOfBoundsMemoryAccess := by
  intro data globals bufLen
  induction data with
  | nil => intro e h; cases h
  | cons d rest ih =>
    intro e h
    cases hoe : d.offsetExpression with
    | none =>
      rw [validateData, hoe] at h
      exact ih e h
    | some expr =>
      rw [validateData, hoe] at h
      dsimp only [] at h
      by_cases hc : executeConstExpression globals expr < 0
          ∨ (bufLen : Int) < executeConstExpression globals expr + d.init.length
      · rw [if_pos hc] at h
        exact (Option.some.inj h).symm
      · rw [if_neg hc] at h
        exact ih e h

lemma applyData_length : ∀ (data : List DataSegment) (globals : List GlobalInstance)
    (buf : List Nat), (applyData globals buf data).length = buf.length := by
  intro data
  induction data with
  | nil => intro globals buf; rfl
  | cons d rest ih =>
    intro globals buf
    cases hoe : d.offsetExpression with
    | none => rw [applyData, hoe]; exact ih globals buf
    | some expr =>
      rw [applyData, hoe]
      rw [ih globals _, copyAt_length]

lemma applyData_append : ∀ (l1 l2 : List DataSegment) (globals : List GlobalInstance)
    (buf : List Nat),
    applyData globals buf (l1 ++ l2) = applyData globals (applyData globals buf l1) l2 := by
  intro l1
  induction l1 with
  | nil => intro l2 globals buf; rfl
  | cons d rest ih =>
    intro l2 globals buf
    cases hoe : d.offsetExpression with
    | none =>
      rw [List.cons_append, applyData, hoe, applyData, hoe]
      exact ih l2 globals buf
    | some expr =>
      rw [List.cons_append, applyData, hoe, applyData, hoe]
      exact ih l2 globals _

lemma applyData_get_outside : ∀ (post : List DataSegment) (globals : List GlobalInstance)
    (buf : List Nat) (j : Nat),
    (∀ d' ∈ post, ∀ expr', d'.offsetExpression = some expr' →
      j < (executeConstExpression globals expr').toNat
      ∨ (executeConstExpression globals expr').toNat + d'.init.length ≤ j) →
    (applyData globals buf post).get? j = buf.get? j := by
  intro post
  induction post with
  | nil => intro globals buf j _; rfl
  | cons d rest ih =>
    intro globals buf j h
    cases hoe : d.offsetExpression with
    | none =>
      rw [applyData, hoe]
      exact ih globals buf j (fun d' hd' => h d' (List.mem_cons_of_mem _ hd'))
    | some expr =>
      rw [applyData, hoe]
      rw [ih globals _ j (fun d' hd' => h d' (List.mem_cons_of_mem _ hd'))]
      rcases h d (List.mem_cons_self _ _) expr hoe with hlt | hge
      · exact copyAt_get_lt buf _ d.init j hlt
      · exact copyAt_get_ge buf _ d.init j hge

/-- Claim C5: during instantiation all active data-segment destinations
are checked before any byte is copied.  `initializeData` (the
validate-then-apply sequence of `Instantiate`) errs iff some active
segment is out of bounds, in which case it returns the buffer unchanged
with the out-of-bounds error; when every active segment is in bounds it
returns `applyData`, and each active segment whose range no later segment
overwrites ends up with its bytes in the buffer. -/
theorem dataSegments_validateThenCopy :
    ∀ (globals : List GlobalInstance) (buf : List Nat) (data : List DataSegment),
      ((initializeData globals buf data).2.isSome = true
        ↔ ∃ d ∈ data, segOOBb globals buf.length d = true)
      ∧ ((∃ d ∈ data, segOOBb globals buf.length d = true) →
          initializeData globals buf data = (buf, some WasmErr.outOfBoundsMemoryAccess))
      ∧ ((∀ d ∈ data, segOOBb globals buf.length d = false) →
          initializeData globals buf data = (applyData globals buf data, none))
      ∧ (∀ (pre post : List DataSegment) (d : DataSegment) (expr : ConstantExpression),
          data = pre ++ d :: post →
          d.offsetExpression = some expr →
          (∀ d' ∈ data, segOOBb globals buf.length d' = false) →
          (∀ d' ∈ post, ∀ expr', d'.offsetExpression = some expr' →
            (executeConstExpression globals expr').toNat + d'.init.length
                ≤ (executeConstExpression globals expr).toNat
            ∨ (executeConstExpression globals expr).toNat + d.init.length
                ≤ (executeConstExpression globals expr').toNat) →
          ∀ k, k < d.init.length →
            (initializeData globals buf data).1.get?
                ((executeConstExpression globals expr).toNat + k)
              = d.init.get? k) := by
  intro globals buf data
  have hok : (∀ d ∈ data, segOOBb globals buf.length d = false) →
      initializeData globals buf data = (applyData globals buf data, none) := by
    intro h
    rw [initializeData, (validateData_none_iff data globals buf.length).2 h]
  have herr : (∃ d ∈ data, segOOBb globals buf.length d = true) →
      initializeData globals buf data = (buf, some WasmErr.outOfBoundsMemoryAccess) := by
    intro ⟨d, hd, htrue⟩
    cases hv : validateData globals buf.length data with
    | none =>
      have := (validateData_none_iff data globals buf.length).1 hv d hd
      rw [htrue] at this
      cases this
    | some e =>
      rw [initializeData, hv, validateData_some_val data globals buf.length e hv]
  refine ⟨?_, herr, hok, ?_⟩
  · constructor
    · intro hsome
      by_contra hno
      have hall : ∀ d ∈ data, segOOBb globals buf.length d = false := by
        intro d hd
        cases hb : segOOBb globals buf.length d with
        | false => rfl
        | true => exact absurd ⟨d, hd, hb⟩ hno
      rw [hok hall] at hsome
      cases hsome
    · intro hex
      rw [herr hex]
      rfl
  · intro pre post d expr hdata hoe hall hdisj k hk
    rw [hok hall, hdata]
    show (applyData globals buf (pre ++ d :: post)).get? _ = _
    rw [applyData_append]
    rw [show applyData globals (applyData globals buf pre) (d :: post)
        = applyData globals
            (copyAt (applyData globals buf pre)
              (executeConstExpression globals expr).toNat d.init) post from by
      rw [applyData, hoe]]
    have hdseg := hall d (by rw [hdata]; exact List.mem_append_right _ (List.mem_cons_self _ _))
    rw [segOOBb, hoe] at hdseg
    simp only [decide_eq_false_iff_not] at hdseg
    push_neg at hdseg
    have hbound : (executeConstExpression globals expr).toNat + d.init.length
        ≤ (applyData globals buf pre).length := by
      rw [applyData_length]
      omega
    rw [applyData_get_outside post globals _ _ ?_]
    · exact copyAt_get_in (applyData globals buf pre)
        (executeConstExpression globals expr).toNat d.init k hk hbound
    · intro d' hd' expr' hoe'
      rcases hdisj d' hd' expr' hoe' with hbefore | hafter
      · right; omega
      · left; omega

/-- Concrete instance of `dataSegments_validateThenCopy`: one active
segment writing byte 5 at offset 1 into a three-byte memory lands the
byte at position 1. -/
theorem dataSegments_validateThenCopy_witness :
    (initializeData [] [0, 0, 0]
        [{ offsetExpression := some (ConstantExpression.i32Const 1), init := [5] }]).1.get?
        ((executeConstExpression [] (ConstantExpression.i32Const 1)).toNat + 0)
      = some 5 := by
  exact (dataSegments_validateThenCopy [] [0, 0, 0]
    [{ offsetExpression := some (ConstantExpression.i32Const 1), init := [5] }]).2.2.2
    [] [] { offsetExpression := some (ConstantExpression.i32Const 1), init := [5] }
    (ConstantExpression.i32Const 1) rfl rfl (by decide)
    (by intro d' hd'; cases hd') 0 (by decide)

end Wazero
